import Mathlib

/-!
Verification of the hnv Hacker News video fetcher.

Shallow embedding of `src/cache.rs` and `src/hacker_news.rs`:
the SQLite-backed cache becomes an association list in insertion order
(INSERT appends a row; SELECT without ORDER BY scans in rowid order, so
a lookup returns the first, oldest, row for a URL); the JSON payloads
parsed by serde_json become an abstract parse oracle producing a
string-keyed mapping of `JValue`; network fetches become a fetch oracle;
the shared progress counter becomes an explicit `Counter` record threaded
through a sequential linearization of the batched task runs.
-/

/-- ASCII-lowercase one character, as Rust `to_ascii_lowercase` does per byte:
letters A..Z shift by 32, everything else is unchanged. -/
def asciiLower (c : Char) : Char :=
  if 'A' ≤ c ∧ c ≤ 'Z' then Char.ofNat (c.toNat + 32) else c

/-- ASCII-lowercase a string, modelling `str::to_ascii_lowercase`. -/
def strLower (s : String) : String :=
  String.mk (s.data.map asciiLower)

/-- `charsLead p l` holds when `p` is an initial segment of `l`
(character-level helper for substring containment). -/
def charsLead : List Char → List Char → Bool
  | [], _ => true
  | _ :: _, [] => false
  | p :: ps, h :: hs => p == h && charsLead ps hs

/-- `containsChars pat hay`: does `pat` occur contiguously inside `hay`?
Models Rust `str::contains` on the character level. -/
def containsChars (pat : List Char) : List Char → Bool
  | [] => pat.isEmpty
  | h :: t => charsLead pat (h :: t) || containsChars pat t

/-- `strContains s pat` models Rust `s.contains(pat)`. -/
def strContains (s pat : String) : Bool :=
  containsChars pat.data s.data

/-- Model of `serde_json::Value`: the JSON values a parsed payload can hold. -/
inductive JValue : Type
  | str : String → JValue
  | num : Int → JValue
  | bool : Bool → JValue
  | null : JValue
  | arr : List JValue → JValue
  | obj : List (String × JValue) → JValue

/-- A parsed payload: the `HashMap<String, Value>` that
`serde_json::from_str` produces, as an association list with unique keys. -/
abbrev JMap : Type := List (String × JValue)

/-- Lookup in the parsed mapping, modelling `HashMap::get`. -/
def jLookup (m : JMap) (k : String) : Option JValue :=
  match m with
  | [] => none
  | (k₁, v) :: t => if k₁ == k then some v else jLookup t k

/-- Model of `serde_json::Value::as_str`: `Some` only on JSON strings. -/
def JValue.as_str : JValue → Option String
  | JValue.str s => some s
  | _ => none

/-- The body of `is_video` after a successful parse (src/hacker_news.rs,
lines 144-164): look up `url`, require a string, ASCII-lowercase it, and
test the six `contains` checks of the source. -/
def is_video_map (item : JMap) : Bool :=
  match jLookup item "url" with
  | some v =>
    match JValue.as_str v with
    | some s =>
      let s := strLower s
      if strContains s "http://www.youtube.com/"
          || strContains s "https://www.youtube.com/"
          || strContains s "http://youtu.be/"
          || strContains s "https://youtu.be/" then
        true
      else if strContains s "[video]" then
        true
      else
        false
    | none => false
  | none => false

/-- `is_video` (src/hacker_news.rs lines 141-165): `serde_json::from_str`
is an oracle whose outcome is the `parsed` argument; a parse failure
propagates through `?` as an error, otherwise the mapping is classified. -/
def is_video (parsed : Except String JMap) : Except String Bool :=
  match parsed with
  | Except.error e => Except.error e
  | Except.ok item => Except.ok (is_video_map item)

/-- The cache table of `src/cache.rs`: rows `(url, response)` in insertion
(rowid) order. -/
abbrev Cache : Type := List (String × String)

/-- `Cache::get` (src/cache.rs lines 39-57): `SELECT response FROM cache
WHERE url = ?` and take the first row, i.e. the first match in rowid
(insertion) order; `None` when no row matches. -/
def Cache.get (c : Cache) (url : String) : Option String :=
  match c with
  | [] => none
  | (u, r) :: t => if u == url then some r else Cache.get t url

/-- `Cache::set` (src/cache.rs lines 62-78): a plain `INSERT`, appending a
new row with the next rowid; no upsert, no uniqueness enforcement. -/
def Cache.set (c : Cache) (url response : String) : Cache :=
  c ++ [(url, response)]

/-- The progress counter of src/hacker_news.rs lines 25-48. -/
structure Counter : Type where
  pending : Nat
  done : Nat
  total : Nat
  deriving DecidableEq

/-- `Counter::pending` (lines 33-35): increment `pending` by one. -/
def Counter.stepPending (c : Counter) : Counter :=
  { c with pending := c.pending + 1 }

/-- `Counter::done` (lines 37-39): increment `done` by one. -/
def Counter.stepDone (c : Counter) : Counter :=
  { c with done := c.done + 1 }

/-- `Counter::counter` (lines 45-47): snapshot the three fields. -/
def Counter.counter (c : Counter) : Nat × Nat × Nat :=
  (c.pending, c.done, c.total)

/-- The mutable state a task run touches: the shared cache and the
optional shared counter (`State` plus the `Option<Arc<RwLock<Counter>>>`
argument of src/hacker_news.rs). -/
structure RunState : Type where
  cache : Cache
  counter : Option Counter
  deriving DecidableEq

/-- The item URL built at src/hacker_news.rs line 110. -/
def itemUrl (id : Int) : String :=
  "https://hacker-news.firebaseio.com/v0/item/" ++ toString id ++ ".json"

/-- `State::get_item` (src/hacker_news.rs lines 101-138) as a sequential
state transformer. `parse` is the serde_json oracle and `fetch` the
network oracle for this run. Early `?` returns leave the state as already
mutated at that point: `pending` is incremented first, a cache miss
stores the fetched payload before classification, and `done` is
incremented exactly once on every non-error path. -/
def get_item (parse : String → Except String JMap)
    (fetch : String → Except String String)
    (st : RunState) (id : Int) : Except String (Option String) × RunState :=
  let st₁ : RunState := { st with counter := st.counter.map Counter.stepPending }
  let url := itemUrl id
  match Cache.get st₁.cache url with
  | some json =>
    match is_video (parse json) with
    | Except.error e => (Except.error e, st₁)
    | Except.ok true =>
      (Except.ok (some json),
        { st₁ with counter := st₁.counter.map Counter.stepDone })
    | Except.ok false =>
      (Except.ok none,
        { st₁ with counter := st₁.counter.map Counter.stepDone })
  | none =>
    match fetch url with
    | Except.error e => (Except.error e, st₁)
    | Except.ok json_text =>
      let st₂ : RunState := { st₁ with cache := Cache.set st₁.cache url json_text }
      match is_video (parse json_text) with
      | Except.error e => (Except.error e, st₂)
      | Except.ok true =>
        (Except.ok (some json_text),
          { st₂ with counter := st₂.counter.map Counter.stepDone })
      | Except.ok false =>
        (Except.ok none,
          { st₂ with counter := st₂.counter.map Counter.stepDone })

/-- `BATCH_SIZE` (src/hacker_news.rs line 17). -/
def BATCH_SIZE : Nat := 20

/-- The batching of src/hacker_news.rs line 82: index `i` runs over
`(0..len).step_by(BATCH_SIZE)` and each batch is
`top_stories.iter().skip(i).take(BATCH_SIZE)`; over a list this is the
chunk starting at the front followed by the batches of the rest. -/
def toBatches : List Int → List (List Int)
  | [] => []
  | x :: xs =>
    (x :: xs).take BATCH_SIZE :: toBatches ((x :: xs).drop BATCH_SIZE)
  termination_by l => l.length
  decreasing_by
    simp only [BATCH_SIZE, List.length_drop, List.length_cons]
    omega

/-- One batch of src/hacker_news.rs lines 83-93 under the sequential
linearization: run `get_item` on each identifier in order, thread the
shared state through, and keep only the `Ok(Some(item))` outcomes
(errors and `Ok(None)` alike contribute nothing, line 90). -/
def runBatchItems (parse : String → Except String JMap)
    (fetch : String → Except String String) :
    RunState → List Int → List String × RunState
  | st, [] => ([], st)
  | st, id :: rest =>
    let p := get_item parse fetch st id
    let q := runBatchItems parse fetch p.2 rest
    match p.1 with
    | Except.ok (some item) => (item :: q.1, q.2)
    | _ => (q.1, q.2)

/-- The batch loop of src/hacker_news.rs lines 82-94: batches run
strictly in sequence, results of each batch appended to the aggregate. -/
def runBatches (parse : String → Except String JMap)
    (fetch : String → Except String String) :
    RunState → List (List Int) → List String × RunState
  | st, [] => ([], st)
  | st, b :: bs =>
    let p := runBatchItems parse fetch st b
    let q := runBatches parse fetch p.2 bs
    (p.1 ++ q.1, q.2)

/-- `HackerNews::get_top_videos` (src/hacker_news.rs lines 64-97):
`listResult` is the outcome of fetching and JSON-decoding the
top-stories list (a failure propagates through `?`); on success the
counter's `total` is set to the list length, the identifiers are split
into batches of `BATCH_SIZE` processed in sequence, and the aggregated
matches are returned as `Ok`. -/
def get_top_videos (parse : String → Except String JMap)
    (fetch : String → Except String String)
    (listResult : Except String (List Int))
    (counter : Option Counter) (cache : Cache) :
    Except String (List String) × RunState :=
  match listResult with
  | Except.error e => (Except.error e, ⟨cache, counter⟩)
  | Except.ok top_stories =>
    let counter := counter.map fun c => { c with total := top_stories.length }
    let st : RunState := ⟨cache, counter⟩
    let p := runBatches parse fetch st (toBatches top_stories)
    (Except.ok p.1, p.2)

/-- Specification helper: does every `get_item` task of the linearized
run over `ids` from state `st` return `Ok`? -/
def runAllOk (parse : String → Except String JMap)
    (fetch : String → Except String String) :
    RunState → List Int → Bool
  | _, [] => true
  | st, id :: rest =>
    let p := get_item parse fetch st id
    (match p.1 with
      | Except.ok _ => true
      | Except.error _ => false)
      && runAllOk parse fetch p.2 rest

/-- A lookup that misses an initial segment continues into the appended rows. -/
theorem Cache.get_append_of_none {c : Cache} {k : String}
    (h : Cache.get c k = none) (d : Cache) :
    Cache.get (c ++ d) k = Cache.get d k := by
  induction c with
  | nil => rfl
  | cons p t ih =>
    obtain ⟨u, r⟩ := p
    simp only [Cache.get, List.cons_append] at h ⊢
    by_cases hu : (u == k) = true
    · rw [hu] at h; cases h
    · rw [Bool.not_eq_true] at hu
      rw [hu] at h ⊢
      exact ih h

/-- The classifier body as one boolean formula: the six source checks in order. -/
theorem is_video_map_eq (m : JMap) :
    is_video_map m =
      match jLookup m "url" with
      | some (JValue.str s) =>
        strContains (strLower s) "http://www.youtube.com/"
          || strContains (strLower s) "https://www.youtube.com/"
          || strContains (strLower s) "http://youtu.be/"
          || strContains (strLower s) "https://youtu.be/"
          || strContains (strLower s) "[video]"
      | _ => false := by
  unfold is_video_map
  cases h : jLookup m "url" with
  | none => rfl
  | some v =>
    cases v with
    | str s =>
      simp only [JValue.as_str]
      cases h₁ : (strContains (strLower s) "http://www.youtube.com/"
          || strContains (strLower s) "https://www.youtube.com/"
          || strContains (strLower s) "http://youtu.be/"
          || strContains (strLower s) "https://youtu.be/") with
      | true => simp [h₁]
      | false =>
        cases h₂ : strContains (strLower s) "[video]" with
        | true => simp [h₁, h₂]
        | false => simp [h₁, h₂]
    | num n => rfl
    | bool b => rfl
    | null => rfl
    | arr l => rfl
    | obj o => rfl

/-- C1: the claim asserts most-recent-write round-trip semantics for every
prior cache state. The code violates it: from a cache already holding a row
for the key, `set` appends a second row and `get` returns the first (oldest)
row, so after `set("k","v2")` over an existing entry `("k","v1")`, `get("k")`
yields `Some("v1")`, not the most recently set `Some("v2")`. -/
theorem cache_stale_value_returned :
    Cache.get (Cache.set [("k", "v1")] "k" "v2") "k" = some "v1" ∧
    (some "v1" : Option String) ≠ some "v2" := by
  refine ⟨rfl, by decide⟩

/-- C5: cache inserts are append-only with no uniqueness enforcement: over a
cache with no row for `k`, `set(k,v1)` then `set(k,v2)` leaves both rows
present, and `get(k)` returns `Some(v1)`, the first (oldest) match. -/
theorem cache_append_only_first_match (c : Cache) (k v₁ v₂ : String)
    (hmiss : Cache.get c k = none) (hne : v₁ ≠ v₂) :
    (k, v₁) ∈ Cache.set (Cache.set c k v₁) k v₂ ∧
    (k, v₂) ∈ Cache.set (Cache.set c k v₁) k v₂ ∧
    Cache.get (Cache.set (Cache.set c k v₁) k v₂) k = some v₁ := by
  refine ⟨?_, ?_, ?_⟩
  · simp [Cache.set]
  · simp [Cache.set]
  · unfold Cache.set
    rw [List.append_assoc, Cache.get_append_of_none hmiss]
    simp [Cache.get]

theorem cache_append_only_first_match_witness :
    ("k", "a") ∈ Cache.set (Cache.set [] "k" "a") "k" "b" ∧
    ("k", "b") ∈ Cache.set (Cache.set [] "k" "a") "k" "b" ∧
    Cache.get (Cache.set (Cache.set [] "k" "a") "k" "b") "k" = some "a" :=
  cache_append_only_first_match [] "k" "a" "b" rfl (by decide)

/-- C4: on a parsed mapping the classifier returns true exactly when the
`url` field is a string whose ASCII-lowercasing contains one of the four
youtube/youtu.be prefixes (http and https) or the literal `[video]` marker;
in particular it accepts the three positive spec examples and rejects the
three negative ones. -/
theorem is_video_classifier_spec :
    (∀ m : JMap, is_video_map m = true ↔
      ∃ s, jLookup m "url" = some (JValue.str s) ∧
        (strContains (strLower s) "http://www.youtube.com/" = true ∨
         strContains (strLower s) "https://www.youtube.com/" = true ∨
         strContains (strLower s) "http://youtu.be/" = true ∨
         strContains (strLower s) "https://youtu.be/" = true ∨
         strContains (strLower s) "[video]" = true)) ∧
    is_video_map [("url", JValue.str "https://www.youtube.com/watch?v=1")] = true ∧
    is_video_map [("url", JValue.str "https://youtu.be/abc")] = true ∧
    is_video_map [("url", JValue.str "[VIDEO] clip")] = true ∧
    is_video_map [("title", JValue.str "no url")] = false ∧
    is_video_map [("url", JValue.str "https://example.com/x")] = false ∧
    is_video_map [("url", JValue.num 123)] = false := by
  refine ⟨?_, rfl, rfl, rfl, rfl, rfl, rfl⟩
  intro m
  rw [is_video_map_eq]
  cases h : jLookup m "url" with
  | none => simp
  | some v =>
    cases v with
    | str s => simp [Bool.or_eq_true, or_assoc]
    | num n => simp
    | bool b => simp
    | null => simp
    | arr l => simp
    | obj o => simp

/-- C2: a payload that fails to parse makes `get_item` fail with that parse
error — never a non-match — whether the payload was served from the cache
or freshly fetched after a miss. -/
theorem get_item_parse_failure_errors (parse : String → Except String JMap)
    (fetch : String → Except String String) (st : RunState) (id : Int)
    (payload e : String) (hparse : parse payload = Except.error e)
    (hsrc : Cache.get st.cache (itemUrl id) = some payload ∨
      (Cache.get st.cache (itemUrl id) = none ∧
        fetch (itemUrl id) = Except.ok payload)) :
    (get_item parse fetch st id).1 = Except.error e := by
  rcases hsrc with hhit | ⟨hmiss, hfetch⟩
  · simp [get_item, hhit, is_video, hparse]
  · simp [get_item, hmiss, hfetch, is_video, hparse]

theorem get_item_parse_failure_errors_witness :
    (get_item (fun _ => Except.error "boom") (fun _ => Except.ok "p")
      ⟨[], none⟩ 1).1 = Except.error "boom" :=
  get_item_parse_failure_errors (fun _ => Except.error "boom")
    (fun _ => Except.ok "p") ⟨[], none⟩ 1 "p" "boom" rfl (Or.inr ⟨rfl, rfl⟩)

/-- C6: on a cache miss whose fetch succeeds, the raw payload is stored in
the cache unconditionally — the resulting cache is exactly the old one with
the payload appended under the item's request key, whatever classification
then does (error, match, or non-match) — and a lookup of that key now finds
the payload. -/
theorem get_item_miss_persists_payload (parse : String → Except String JMap)
    (fetch : String → Except String String) (st : RunState) (id : Int)
    (txt : String) (hmiss : Cache.get st.cache (itemUrl id) = none)
    (hfetch : fetch (itemUrl id) = Except.ok txt) :
    (get_item parse fetch st id).2.cache = Cache.set st.cache (itemUrl id) txt ∧
    Cache.get (get_item parse fetch st id).2.cache (itemUrl id) = some txt := by
  have hcache : (get_item parse fetch st id).2.cache
      = Cache.set st.cache (itemUrl id) txt := by
    cases hiv : is_video (parse txt) with
    | error e => simp [get_item, hmiss, hfetch, hiv]
    | ok b => cases b <;> simp [get_item, hmiss, hfetch, hiv]
  refine ⟨hcache, ?_⟩
  rw [hcache]
  unfold Cache.set
  rw [Cache.get_append_of_none hmiss]
  simp [Cache.get]

theorem get_item_miss_persists_payload_witness :
    (get_item (fun _ => Except.error "boom") (fun _ => Except.ok "p")
        ⟨[], none⟩ 1).2.cache = Cache.set [] (itemUrl 1) "p" ∧
    Cache.get (get_item (fun _ => Except.error "boom") (fun _ => Except.ok "p")
        ⟨[], none⟩ 1).2.cache (itemUrl 1) = some "p" :=
  get_item_miss_persists_payload (fun _ => Except.error "boom")
    (fun _ => Except.ok "p") ⟨[], none⟩ 1 "p" rfl rfl

/-- C9: on a cache hit `get_item` never writes: the cache after the call is
exactly the cache before it, so processing already-cached items leaves the
store unchanged. -/
theorem get_item_hit_cache_frame (parse : String → Except String JMap)
    (fetch : String → Except String String) (st : RunState) (id : Int)
    (json : String) (hhit : Cache.get st.cache (itemUrl id) = some json) :
    (get_item parse fetch st id).2.cache = st.cache := by
  cases hiv : is_video (parse json) with
  | error e => simp [get_item, hhit, hiv]
  | ok b => cases b <;> simp [get_item, hhit, hiv]

theorem get_item_hit_cache_frame_witness :
    (get_item (fun _ => Except.ok []) (fun _ => Except.error "net")
      ⟨[(itemUrl 1, "p")], none⟩ 1).2.cache = [(itemUrl 1, "p")] :=
  get_item_hit_cache_frame (fun _ => Except.ok []) (fun _ => Except.error "net")
    ⟨[(itemUrl 1, "p")], none⟩ 1 "p" (by simp [Cache.get])

/-- `toBatches` yields the empty partition only for the empty list. -/
theorem toBatches_eq_nil_iff (l : List Int) : toBatches l = [] ↔ l = [] := by
  cases l with
  | nil => simp [toBatches]
  | cons x xs => simp [toBatches]

/-- Concatenating the batches in order restores the identifier list. -/
theorem toBatches_flatten (l : List Int) : (toBatches l).flatten = l := by
  induction l using toBatches.induct with
  | case1 => simp [toBatches]
  | case2 x xs ih =>
    simp only [toBatches, List.flatten_cons]
    rw [ih]
    exact List.take_append_drop _ _

/-- Every batch is nonempty and no longer than `BATCH_SIZE`. -/
theorem toBatches_mem_length (l : List Int) :
    ∀ b ∈ toBatches l, b ≠ [] ∧ b.length ≤ BATCH_SIZE := by
  induction l using toBatches.induct with
  | case1 => simp [toBatches]
  | case2 x xs ih =>
    simp only [toBatches]
    intro b hb
    rcases List.mem_cons.mp hb with rfl | hb
    · refine ⟨List.ne_nil_of_length_pos ?_, ?_⟩
      · simp only [List.length_take, List.length_cons, BATCH_SIZE]
        omega
      · simp only [List.length_take, List.length_cons, BATCH_SIZE]
        omega
    · exact ih b hb

/-- Every batch except possibly the last has length exactly `BATCH_SIZE`. -/
theorem toBatches_dropLast_full (l : List Int) :
    ∀ b ∈ (toBatches l).dropLast, b.length = BATCH_SIZE := by
  induction l using toBatches.induct with
  | case1 => simp [toBatches]
  | case2 x xs ih =>
    simp only [toBatches]
    cases hrest : toBatches ((x :: xs).drop BATCH_SIZE) with
    | nil => simp
    | cons b bs =>
      rw [List.dropLast_cons₂]
      intro y hy
      rcases List.mem_cons.mp hy with rfl | hy
      · have hne : (x :: xs).drop BATCH_SIZE ≠ [] := by
          intro hnil
          rw [hnil] at hrest
          simp [toBatches] at hrest
        have hlen : BATCH_SIZE < (x :: xs).length := by
          by_contra hle
          push_neg at hle
          exact hne (List.drop_eq_nil_iff.mpr hle)
        simp only [List.length_take]
        omega
      · rw [hrest] at ih
        exact ih y hy

/-- A failed `get_item` call has already recorded `pending` and nothing else. -/
theorem get_item_counter_err (parse : String → Except String JMap)
    (fetch : String → Except String String) (st : RunState) (id : Int)
    (e : String) (h : (get_item parse fetch st id).1 = Except.error e) :
    (get_item parse fetch st id).2.counter = st.counter.map Counter.stepPending := by
  cases hcg : Cache.get st.cache (itemUrl id) with
  | some json =>
    cases hiv : is_video (parse json) with
    | error e₁ => simp [get_item, hcg, hiv]
    | ok b => cases b <;> simp [get_item, hcg, hiv] at h
  | none =>
    cases hf : fetch (itemUrl id) with
    | error e₁ => simp [get_item, hcg, hf]
    | ok txt =>
      cases hiv : is_video (parse txt) with
      | error e₁ => simp [get_item, hcg, hf, hiv]
      | ok b => cases b <;> simp [get_item, hcg, hf, hiv] at h

/-- A successful `get_item` call has recorded `pending` and then `done`,
each exactly once, on both the hit and the miss path, whatever the match
outcome. -/
theorem get_item_counter_ok (parse : String → Except String JMap)
    (fetch : String → Except String String) (st : RunState) (id : Int)
    (r : Option String) (h : (get_item parse fetch st id).1 = Except.ok r) :
    (get_item parse fetch st id).2.counter =
      (st.counter.map Counter.stepPending).map Counter.stepDone := by
  cases hcg : Cache.get st.cache (itemUrl id) with
  | some json =>
    cases hiv : is_video (parse json) with
    | error e₁ => simp [get_item, hcg, hiv] at h
    | ok b => cases b <;> simp [get_item, hcg, hiv]
  | none =>
    cases hf : fetch (itemUrl id) with
    | error e₁ => simp [get_item, hcg, hf] at h
    | ok txt =>
      cases hiv : is_video (parse txt) with
      | error e₁ => simp [get_item, hcg, hf, hiv] at h
      | ok b => cases b <;> simp [get_item, hcg, hf, hiv]

/-- A payload returned by a successful matching task classifies as a video. -/
theorem get_item_some_is_video (parse : String → Except String JMap)
    (fetch : String → Except String String) (st : RunState) (id : Int)
    (item : String) (h : (get_item parse fetch st id).1 = Except.ok (some item)) :
    is_video (parse item) = Except.ok true := by
  cases hcg : Cache.get st.cache (itemUrl id) with
  | some json =>
    cases hiv : is_video (parse json) with
    | error e₁ => simp [get_item, hcg, hiv] at h
    | ok b =>
      cases b with
      | false => simp [get_item, hcg, hiv] at h
      | true =>
        simp [get_item, hcg, hiv] at h
        rw [← h]
        exact hiv
  | none =>
    cases hf : fetch (itemUrl id) with
    | error e₁ => simp [get_item, hcg, hf] at h
    | ok txt =>
      cases hiv : is_video (parse txt) with
      | error e₁ => simp [get_item, hcg, hf, hiv] at h
      | ok b =>
        cases b with
        | false => simp [get_item, hcg, hf, hiv] at h
        | true =>
          simp [get_item, hcg, hf, hiv] at h
          rw [← h]
          exact hiv

/-- The state after a batch step does not depend on whether the task's
outcome was kept: it is the state after the remaining tasks. -/
theorem runBatchItems_cons_snd (parse : String → Except String JMap)
    (fetch : String → Except String String) (st : RunState) (id : Int)
    (rest : List Int) :
    (runBatchItems parse fetch st (id :: rest)).2 =
      (runBatchItems parse fetch (get_item parse fetch st id).2 rest).2 := by
  cases hp : (get_item parse fetch st id).1 with
  | error e => simp [runBatchItems, hp]
  | ok o => cases o <;> simp [runBatchItems, hp]

/-- Counter accounting for one linearized batch run: `pending` grows by the
number of tasks, `done` by the number of tasks whose call returned `Ok`,
`total` is untouched, and `done` catches up with the task count exactly
when every call returned `Ok`. -/
theorem runBatchItems_counter (parse : String → Except String JMap)
    (fetch : String → Except String String) :
    ∀ (ids : List Int) (st : RunState) (c : Counter), st.counter = some c →
      ∃ k, k ≤ ids.length ∧
        (runBatchItems parse fetch st ids).2.counter =
          some ⟨c.pending + ids.length, c.done + k, c.total⟩ ∧
        (runAllOk parse fetch st ids = true ↔ k = ids.length) := by
  intro ids
  induction ids with
  | nil =>
    intro st c hc
    refine ⟨0, Nat.le_refl 0, ?_, by simp [runAllOk]⟩
    simp [runBatchItems, hc]
  | cons id rest ih =>
    intro st c hc
    rw [runBatchItems_cons_snd]
    cases hp : (get_item parse fetch st id).1 with
    | error e =>
      have hcnt := get_item_counter_err parse fetch st id e hp
      rw [hc] at hcnt
      obtain ⟨k, hk, hfin, hallok⟩ :=
        ih (get_item parse fetch st id).2 ⟨c.pending + 1, c.done, c.total⟩ hcnt
      refine ⟨k, ?_, ?_, ?_⟩
      · simp only [List.length_cons]; omega
      · rw [hfin]
        simp only [Option.some.injEq, Counter.mk.injEq, List.length_cons, and_true]
        omega
      · have hfalse : runAllOk parse fetch st (id :: rest) = false := by
          simp [runAllOk, hp]
        rw [hfalse]
        simp only [Bool.false_eq_true, false_iff, List.length_cons]
        omega
    | ok o =>
      have hcnt := get_item_counter_ok parse fetch st id o hp
      rw [hc] at hcnt
      obtain ⟨k, hk, hfin, hallok⟩ :=
        ih (get_item parse fetch st id).2 ⟨c.pending + 1, c.done + 1, c.total⟩ hcnt
      refine ⟨k + 1, ?_, ?_, ?_⟩
      · simp only [List.length_cons]; omega
      · rw [hfin]
        simp only [Option.some.injEq, Counter.mk.injEq, List.length_cons, and_true]
        omega
      · have hallok₂ : runAllOk parse fetch st (id :: rest) =
            runAllOk parse fetch (get_item parse fetch st id).2 rest := by
          simp [runAllOk, hp]
        rw [hallok₂, hallok]
        simp only [List.length_cons]
        omega

/-- Running a concatenation of identifier lists is running the two parts in
sequence: the kept results concatenate and the state threads through. -/
theorem runBatchItems_append (parse : String → Except String JMap)
    (fetch : String → Except String String) :
    ∀ (a b : List Int) (st : RunState),
      runBatchItems parse fetch st (a ++ b) =
        ((runBatchItems parse fetch st a).1 ++
          (runBatchItems parse fetch (runBatchItems parse fetch st a).2 b).1,
         (runBatchItems parse fetch (runBatchItems parse fetch st a).2 b).2) := by
  intro a
  induction a with
  | nil => intro b st; simp [runBatchItems]
  | cons id rest ih =>
    intro b st
    cases hp : (get_item parse fetch st id).1 with
    | error e => simp [runBatchItems, hp, ih]
    | ok o => cases o <;> simp [runBatchItems, hp, ih]

/-- The sequential batch loop is the linearized run of the flattened
identifier list. -/
theorem runBatches_eq_flat (parse : String → Except String JMap)
    (fetch : String → Except String String) :
    ∀ (bs : List (List Int)) (st : RunState),
      runBatches parse fetch st bs = runBatchItems parse fetch st bs.flatten := by
  intro bs
  induction bs with
  | nil => intro st; simp [runBatches, runBatchItems]
  | cons b rest ih =>
    intro st
    simp only [runBatches, List.flatten_cons]
    rw [runBatchItems_append, ih]

/-- Everything a linearized batch run keeps came from a task that returned
`Ok(Some(..))`, hence classifies as a video: failed tasks and non-matches
alike contribute nothing. -/
theorem runBatchItems_mem_is_video (parse : String → Except String JMap)
    (fetch : String → Except String String) :
    ∀ (ids : List Int) (st : RunState) (s : String),
      s ∈ (runBatchItems parse fetch st ids).1 →
      is_video (parse s) = Except.ok true := by
  intro ids
  induction ids with
  | nil => intro st s hs; simp [runBatchItems] at hs
  | cons id rest ih =>
    intro st s hs
    cases hp : (get_item parse fetch st id).1 with
    | error e =>
      simp only [runBatchItems, hp] at hs
      exact ih _ _ hs
    | ok o =>
      cases o with
      | none =>
        simp only [runBatchItems, hp] at hs
        exact ih _ _ hs
      | some item =>
        simp only [runBatchItems, hp] at hs
        rcases List.mem_cons.mp hs with rfl | hs
        · exact get_item_some_is_video parse fetch st id s hp
        · exact ih _ _ hs

/-- When the parse and fetch oracles always succeed, every `get_item` call
returns `Ok`. -/
theorem get_item_isOk_of_oracles (parse : String → Except String JMap)
    (fetch : String → Except String String)
    (hp : ∀ s, ∃ m, parse s = Except.ok m)
    (hf : ∀ u, ∃ t, fetch u = Except.ok t)
    (st : RunState) (id : Int) :
    ∃ r, (get_item parse fetch st id).1 = Except.ok r := by
  cases hcg : Cache.get st.cache (itemUrl id) with
  | some json =>
    obtain ⟨m, hm⟩ := hp json
    cases hb : is_video_map m with
    | false => exact ⟨none, by simp [get_item, hcg, is_video, hm, hb]⟩
    | true => exact ⟨some json, by simp [get_item, hcg, is_video, hm, hb]⟩
  | none =>
    obtain ⟨t, ht⟩ := hf (itemUrl id)
    obtain ⟨m, hm⟩ := hp t
    cases hb : is_video_map m with
    | false => exact ⟨none, by simp [get_item, hcg, ht, is_video, hm, hb]⟩
    | true => exact ⟨some t, by simp [get_item, hcg, ht, is_video, hm, hb]⟩

/-- When the parse and fetch oracles always succeed, a whole linearized run
succeeds task by task. -/
theorem runAllOk_of_oracles (parse : String → Except String JMap)
    (fetch : String → Except String String)
    (hp : ∀ s, ∃ m, parse s = Except.ok m)
    (hf : ∀ u, ∃ t, fetch u = Except.ok t) :
    ∀ (ids : List Int) (st : RunState), runAllOk parse fetch st ids = true := by
  intro ids
  induction ids with
  | nil => intro st; simp [runAllOk]
  | cons id rest ih =>
    intro st
    obtain ⟨r, hr⟩ := get_item_isOk_of_oracles parse fetch hp hf st id
    simp [runAllOk, hr, ih]

/-- C3: once the top-stories list decodes, `get_top_videos` returns `Ok`
whatever the per-task oracles do — a failing task cannot abort the call or
propagate — and every payload in the result came from a task that returned
`Ok(Some(..))` and classifies as a video, so a failing item is simply
absent, indistinguishable from a non-match. -/
theorem get_top_videos_ok_of_list_ok (parse : String → Except String JMap)
    (fetch : String → Except String String) (ids : List Int)
    (counter : Option Counter) (cache : Cache) :
    (∃ res st, get_top_videos parse fetch (Except.ok ids) counter cache =
      (Except.ok res, st)) ∧
    ∀ res, (get_top_videos parse fetch (Except.ok ids) counter cache).1 =
        Except.ok res →
      ∀ s ∈ res, is_video (parse s) = Except.ok true := by
  constructor
  · exact ⟨_, _, rfl⟩
  · intro res hres s hs
    have h1 : (get_top_videos parse fetch (Except.ok ids) counter cache).1 =
        Except.ok (runBatches parse fetch
          ⟨cache, counter.map fun c => { c with total := ids.length }⟩
          (toBatches ids)).1 := rfl
    rw [h1] at hres
    cases hres
    rw [runBatches_eq_flat] at hs
    exact runBatchItems_mem_is_video parse fetch _ _ s hs

theorem get_top_videos_ok_of_list_ok_witness :
    is_video ((fun _ : String => Except.ok ([("url", JValue.str "[video]")] : JMap)) "p")
      = Except.ok true := by
  have hb : toBatches [1] = [[1]] := by
    simp only [toBatches]
    rw [show List.drop BATCH_SIZE [(1 : Int)] = [] by decide,
        show List.take BATCH_SIZE [(1 : Int)] = [1] by decide]
    simp [toBatches]
  have hmain : (get_top_videos (fun _ : String => Except.ok ([("url", JValue.str "[video]")] : JMap))
      (fun _ => Except.ok "p") (Except.ok [1]) none []).1 = Except.ok ["p"] := by
    have h1 : (get_top_videos (fun _ : String => Except.ok ([("url", JValue.str "[video]")] : JMap))
        (fun _ => Except.ok "p") (Except.ok [1]) none []).1 =
        Except.ok ((runBatches (fun _ : String => Except.ok ([("url", JValue.str "[video]")] : JMap))
          (fun _ => Except.ok "p") ⟨[], none⟩ (toBatches [1])).1) := rfl
    rw [h1, hb]
    rfl
  exact (get_top_videos_ok_of_list_ok
      (fun _ : String => Except.ok ([("url", JValue.str "[video]")] : JMap))
      (fun _ => Except.ok "p") [1] none []).2 ["p"] hmain "p"
    (List.mem_singleton_self "p")

/-- C7: the counter operations only increment their field; a task whose
call returns `Ok` records `pending` and `done` exactly once each, on hit
and miss, match and non-match alike; and a run in which every task
succeeds ends with `done` equal to `total`, the identifier-list length. -/
theorem counter_progress_accounting :
    (∀ c : Counter, Counter.stepPending c = ⟨c.pending + 1, c.done, c.total⟩ ∧
      Counter.stepDone c = ⟨c.pending, c.done + 1, c.total⟩) ∧
    (∀ (parse : String → Except String JMap) (fetch : String → Except String String)
      (st : RunState) (id : Int) (c : Counter) (r : Option String),
      st.counter = some c → (get_item parse fetch st id).1 = Except.ok r →
      (get_item parse fetch st id).2.counter =
        some ⟨c.pending + 1, c.done + 1, c.total⟩) ∧
    (∀ (parse : String → Except String JMap) (fetch : String → Except String String)
      (ids : List Int) (c₀ : Counter) (cache : Cache),
      (∀ s, ∃ m, parse s = Except.ok m) →
      (∀ u, ∃ t, fetch u = Except.ok t) →
      c₀.done = 0 →
      ∃ cf : Counter,
        (get_top_videos parse fetch (Except.ok ids) (some c₀) cache).2.counter =
          some cf ∧ cf.done = cf.total ∧ cf.total = ids.length) := by
  refine ⟨fun c => ⟨rfl, rfl⟩, ?_, ?_⟩
  · intro parse fetch st id c r h1 h2
    have h3 := get_item_counter_ok parse fetch st id r h2
    rw [h1] at h3
    exact h3
  · intro parse fetch ids c₀ cache hp hf hd0
    obtain ⟨k, hk, hfin, hiff⟩ := runBatchItems_counter parse fetch ids
      ⟨cache, some ⟨c₀.pending, c₀.done, ids.length⟩⟩
      ⟨c₀.pending, c₀.done, ids.length⟩ rfl
    have hall := runAllOk_of_oracles parse fetch hp hf ids
      ⟨cache, some ⟨c₀.pending, c₀.done, ids.length⟩⟩
    have hkeq : k = ids.length := hiff.mp hall
    refine ⟨⟨c₀.pending + ids.length, c₀.done + k, ids.length⟩, ?_, ?_, rfl⟩
    · have h2 : (get_top_videos parse fetch (Except.ok ids) (some c₀) cache).2 =
          (runBatches parse fetch ⟨cache, some ⟨c₀.pending, c₀.done, ids.length⟩⟩
            (toBatches ids)).2 := rfl
      rw [h2, runBatches_eq_flat, toBatches_flatten]
      exact hfin
    · show c₀.done + k = ids.length
      omega

theorem counter_progress_accounting_witness :
    Counter.stepPending ⟨0, 0, 0⟩ = ⟨1, 0, 0⟩ ∧
    (get_item (fun _ : String => Except.ok ([] : JMap)) (fun _ => Except.ok "p")
        ⟨[], some ⟨0, 0, 0⟩⟩ 1).2.counter = some ⟨1, 1, 0⟩ ∧
    ∃ cf : Counter,
      (get_top_videos (fun _ : String => Except.ok ([] : JMap)) (fun _ => Except.ok "p")
          (Except.ok [1, 2]) (some ⟨0, 0, 0⟩) []).2.counter = some cf ∧
        cf.done = cf.total ∧ cf.total = [1, 2].length :=
  ⟨(counter_progress_accounting.1 ⟨0, 0, 0⟩).1,
    counter_progress_accounting.2.1 (fun _ => Except.ok []) (fun _ => Except.ok "p")
      ⟨[], some ⟨0, 0, 0⟩⟩ 1 ⟨0, 0, 0⟩ none rfl rfl,
    counter_progress_accounting.2.2 (fun _ => Except.ok []) (fun _ => Except.ok "p")
      [1, 2] ⟨0, 0, 0⟩ [] (fun s => ⟨[], rfl⟩) (fun u => ⟨"p", rfl⟩) rfl⟩

/-- C8: the orchestrator splits the identifier list into contiguous batches
of fixed size `BATCH_SIZE = 20` (only the last batch may be shorter, none
is empty), processes them strictly in sequence, and concatenating the
batches in processing order restores the original list. -/
theorem get_top_videos_batching (ids : List Int) :
    BATCH_SIZE = 20 ∧
    (toBatches ids).flatten = ids ∧
    (∀ b ∈ toBatches ids, b ≠ [] ∧ b.length ≤ BATCH_SIZE) ∧
    (∀ b ∈ (toBatches ids).dropLast, b.length = BATCH_SIZE) ∧
    (∀ (parse : String → Except String JMap) (fetch : String → Except String String)
      (counter : Option Counter) (cache : Cache),
      (get_top_videos parse fetch (Except.ok ids) counter cache).1 =
        Except.ok (runBatches parse fetch
          ⟨cache, counter.map fun c => { c with total := ids.length }⟩
          (toBatches ids)).1) :=
  ⟨rfl, toBatches_flatten ids, toBatches_mem_length ids, toBatches_dropLast_full ids,
    fun _ _ _ _ => rfl⟩

theorem get_top_videos_batching_witness :
    (toBatches [1, 2, 3]).flatten = [1, 2, 3] ∧
    (([1, 2, 3] : List Int) ≠ [] ∧ ([1, 2, 3] : List Int).length ≤ BATCH_SIZE) := by
  have hb : toBatches [1, 2, 3] = [[1, 2, 3]] := by
    simp only [toBatches]
    rw [show List.drop BATCH_SIZE [(1 : Int), 2, 3] = [] by decide,
        show List.take BATCH_SIZE [(1 : Int), 2, 3] = [1, 2, 3] by decide]
    simp [toBatches]
  exact ⟨(get_top_videos_batching [1, 2, 3]).2.1,
    (get_top_videos_batching [1, 2, 3]).2.2.1 [1, 2, 3]
      (by rw [hb]; exact List.mem_singleton_self _)⟩

/-- C10: a failing `get_item` call has incremented `started` (recorded
before anything else) but not `completed`; along a run `completed` never
overtakes `started`; and a run from a fresh counter that contains at least
one failed task ends with `completed` strictly below `total`. -/
theorem get_item_started_completed_invariant :
    (∀ (parse : String → Except String JMap) (fetch : String → Except String String)
      (st : RunState) (id : Int) (c : Counter) (e : String),
      st.counter = some c → (get_item parse fetch st id).1 = Except.error e →
      (get_item parse fetch st id).2.counter = some ⟨c.pending + 1, c.done, c.total⟩) ∧
    (∀ (parse : String → Except String JMap) (fetch : String → Except String String)
      (ids : List Int) (st : RunState) (c : Counter),
      st.counter = some c → c.done ≤ c.pending →
      ∃ cf : Counter, (runBatchItems parse fetch st ids).2.counter = some cf ∧
        cf.done ≤ cf.pending) ∧
    (∀ (parse : String → Except String JMap) (fetch : String → Except String String)
      (ids : List Int) (cache : Cache) (c₀ : Counter),
      c₀.done = 0 →
      runAllOk parse fetch ⟨cache, some ⟨c₀.pending, c₀.done, ids.length⟩⟩ ids = false →
      ∃ cf : Counter,
        (get_top_videos parse fetch (Except.ok ids) (some c₀) cache).2.counter = some cf ∧
        cf.done < cf.total ∧ cf.total = ids.length) := by
  refine ⟨?_, ?_, ?_⟩
  · intro parse fetch st id c e h1 h2
    have h3 := get_item_counter_err parse fetch st id e h2
    rw [h1] at h3
    exact h3
  · intro parse fetch ids st c hc hle
    obtain ⟨k, hk, hfin, hiff⟩ := runBatchItems_counter parse fetch ids st c hc
    refine ⟨⟨c.pending + ids.length, c.done + k, c.total⟩, hfin, ?_⟩
    show c.done + k ≤ c.pending + ids.length
    omega
  · intro parse fetch ids cache c₀ hd0 hfail
    obtain ⟨k, hk, hfin, hiff⟩ := runBatchItems_counter parse fetch ids
      ⟨cache, some ⟨c₀.pending, c₀.done, ids.length⟩⟩
      ⟨c₀.pending, c₀.done, ids.length⟩ rfl
    have hkne : k ≠ ids.length := by
      intro hkeq
      rw [hiff.mpr hkeq] at hfail
      cases hfail
    refine ⟨⟨c₀.pending + ids.length, c₀.done + k, ids.length⟩, ?_, ?_, rfl⟩
    · have h2 : (get_top_videos parse fetch (Except.ok ids) (some c₀) cache).2 =
          (runBatches parse fetch ⟨cache, some ⟨c₀.pending, c₀.done, ids.length⟩⟩
            (toBatches ids)).2 := rfl
      rw [h2, runBatches_eq_flat, toBatches_flatten]
      exact hfin
    · show c₀.done + k < ids.length
      omega

theorem get_item_started_completed_invariant_witness :
    (get_item (fun _ : String => Except.error "bad") (fun _ => Except.ok "p")
        ⟨[], some ⟨0, 0, 0⟩⟩ 1).2.counter = some ⟨1, 0, 0⟩ ∧
    (∃ cf : Counter,
      (runBatchItems (fun _ : String => Except.error "bad") (fun _ => Except.ok "p")
          ⟨[], some ⟨0, 0, 0⟩⟩ [1]).2.counter = some cf ∧ cf.done ≤ cf.pending) ∧
    ∃ cf : Counter,
      (get_top_videos (fun _ : String => Except.error "bad") (fun _ => Except.ok "p")
          (Except.ok [1]) (some ⟨0, 0, 0⟩) []).2.counter = some cf ∧
        cf.done < cf.total ∧ cf.total = [1].length :=
  ⟨get_item_started_completed_invariant.1 (fun _ => Except.error "bad")
      (fun _ => Except.ok "p") ⟨[], some ⟨0, 0, 0⟩⟩ 1 ⟨0, 0, 0⟩ "bad" rfl rfl,
    get_item_started_completed_invariant.2.1 (fun _ => Except.error "bad")
      (fun _ => Except.ok "p") [1] ⟨[], some ⟨0, 0, 0⟩⟩ ⟨0, 0, 0⟩ rfl (Nat.le_refl 0),
    get_item_started_completed_invariant.2.2 (fun _ => Except.error "bad")
      (fun _ => Except.ok "p") [1] [] ⟨0, 0, 0⟩ rfl rfl⟩
